import Mathlib

/-!
# Verification of the dbsync sampling and referential-subsetting engine

A shallow embedding of `src/dbsync.py`: the `Table` data model, the value
rendering of `Table._stringify_value`, the id-column location of
`Table.ididx`, the literal-insert dump of `Table._select_and_insert`, the
predicate construction of `Table._build_where_clause`, the restriction
attachment of `Table.add_foreign_table` / `set_sampled_ids`, and the phase
ordering of `main`.  Python integers are `Int`, Python `None` and raised
exceptions are explicit `Option` / error values, Python dicts keyed by
insertion order are association lists.
-/

namespace Dbsync

/-- Python exception taxonomy relevant to the embedded code: `RuntimeError`
(raised by `Table.add_foreign_table` on a duplicate attachment),
`TypeError` (non-serializable value, `tuple(None)`), `IndexError`
(out-of-range list index), and the I/O error family, which the embedded
code never raises itself. -/
inductive PyError where
  | runtimeError : String → PyError
  | typeError : PyError
  | indexError : PyError
  | ioError : PyError
deriving DecidableEq

mutual
/-- A parsed JSON document, as psycopg2 hands values of `json`-typed
columns to Python (`dict` / `list` / scalars).  Arrays and objects carry
their own list types so that all recursion below is structural. -/
inductive JsonVal where
  | jnull : JsonVal
  | jbool : Bool → JsonVal
  | jint : Int → JsonVal
  | jstr : String → JsonVal
  | jarr : JsonArr → JsonVal
  | jobj : JsonObj → JsonVal
deriving DecidableEq

inductive JsonArr where
  | nil : JsonArr
  | cons : JsonVal → JsonArr → JsonArr
deriving DecidableEq

inductive JsonObj where
  | nil : JsonObj
  | cons : String → JsonVal → JsonObj → JsonObj
deriving DecidableEq
end

/-- A database cell value as the Python code sees it: `None`, an integer,
a string, a boolean, a `datetime` (modelled by its date part and time
part: `isoformat()` joins them with `T`, `str()` with a space), or a
parsed JSON document. -/
inductive Value where
  | none : Value
  | int : Int → Value
  | str : String → Value
  | bool : Bool → Value
  | timestamp : String → String → Value
  | json : JsonVal → Value
deriving DecidableEq

/-- Python `sep.join(parts)`. -/
def joinWith (sep : String) : List String → String
  | [] => ""
  | [x] => x
  | x :: xs => x ++ sep ++ joinWith sep xs

/-- Python `s.startswith(p)`. -/
def startswith (s p : String) : Bool :=
  p.toList.isPrefixOf s.toList

/-- Lower-case hexadecimal digit, for `\uXXXX` escapes. -/
def hexDigit (n : Nat) : Char :=
  if n < 10 then Char.ofNat ('0'.toNat + n) else Char.ofNat ('a'.toNat + (n - 10))

/-- Four lower-case hex digits, for `\uXXXX` escapes. -/
def hex4 (n : Nat) : String :=
  String.mk [hexDigit (n / 4096 % 16), hexDigit (n / 256 % 16),
             hexDigit (n / 16 % 16), hexDigit (n % 16)]

/-- Model of `json.dumps` escaping of one character (default `ensure_ascii=True`):
short escapes for the common controls, `\uXXXX` for other controls and
non-ASCII, surrogate pairs above the BMP. -/
def jescChar (c : Char) : String :=
  if c = '"' then "\\\""
  else if c = '\\' then "\\\\"
  else if c = '\n' then "\\n"
  else if c = '\t' then "\\t"
  else if c = '\r' then "\\r"
  else if c = Char.ofNat 8 then "\\b"
  else if c = Char.ofNat 12 then "\\f"
  else if c.toNat < 32 then "\\u" ++ hex4 c.toNat
  else if c.toNat < 128 then String.singleton c
  else if c.toNat < 65536 then "\\u" ++ hex4 c.toNat
  else
    let m := c.toNat - 65536
    "\\u" ++ hex4 (55296 + m / 1024) ++ "\\u" ++ hex4 (56320 + m % 1024)

/-- Model of `json.dumps` rendering of a JSON string (quoted, escaped). -/
def jstrRender (s : String) : String :=
  "\"" ++ String.join (s.toList.map jescChar) ++ "\""

mutual
/-- Model of `json.dumps(value)` with the default separators `', '` and `': '`. -/
def jdumps : JsonVal → String
  | .jnull => "null"
  | .jbool b => if b then "true" else "false"
  | .jint n => toString n
  | .jstr s => jstrRender s
  | .jarr a => "[" ++ jdumpsArr a ++ "]"
  | .jobj o => "\x7b" ++ jdumpsObj o ++ "\x7d"

def jdumpsArr : JsonArr → String
  | .nil => ""
  | .cons v .nil => jdumps v
  | .cons v rest => jdumps v ++ ", " ++ jdumpsArr rest

def jdumpsObj : JsonObj → String
  | .nil => ""
  | .cons k v .nil => jstrRender k ++ ": " ++ jdumps v
  | .cons k v rest => jstrRender k ++ ": " ++ jdumps v ++ ", " ++ jdumpsObj rest
end

mutual
/-- Python `repr` of a parsed JSON document (`repr` of the dict/list),
used by `str`/`repr` when such a value is interpolated directly.  String
quote-escaping is not modelled beyond the plain single-quoted form. -/
def jrepr : JsonVal → String
  | .jnull => "None"
  | .jbool b => if b then "True" else "False"
  | .jint n => toString n
  | .jstr s => "'" ++ s ++ "'"
  | .jarr a => "[" ++ jreprArr a ++ "]"
  | .jobj o => "\x7b" ++ jreprObj o ++ "\x7d"

def jreprArr : JsonArr → String
  | .nil => ""
  | .cons v .nil => jrepr v
  | .cons v rest => jrepr v ++ ", " ++ jreprArr rest

def jreprObj : JsonObj → String
  | .nil => ""
  | .cons k v .nil => "'" ++ k ++ "': " ++ jrepr v
  | .cons k v rest => "'" ++ k ++ "': " ++ jrepr v ++ ", " ++ jreprObj rest
end

/-- Python `str(value)` for the cell values above (`'{}'.format(value)`). -/
def pyStr : Value → String
  | .none => "None"
  | .int n => toString n
  | .str s => s
  | .bool b => if b then "True" else "False"
  | .timestamp d t => d ++ " " ++ t
  | .json j => jrepr j

/-- Python `repr(value)`, as used when a tuple of captured ids is
interpolated into the `WHERE` clause.  Faithful for integers (the captured
ids exercised here); strings are rendered in the plain single-quoted form,
datetimes in `repr`-like constructor form. -/
def pyRepr : Value → String
  | .none => "None"
  | .int n => toString n
  | .str s => "'" ++ s ++ "'"
  | .bool b => if b then "True" else "False"
  | .timestamp d t => "datetime.datetime(" ++ d ++ " " ++ t ++ ")"
  | .json j => jrepr j

/-- Python `str` of a tuple of values: `()`, `(v,)` for one element
(trailing comma), `(v1, v2, …)` otherwise. -/
def pyTupleRepr : List Value → String
  | [] => "()"
  | [v] => "(" ++ pyRepr v ++ ",)"
  | v :: vs => "(" ++ joinWith ", " ((v :: vs).map pyRepr) ++ ")"

/-- Model of `json.dumps(value)` on a cell value: serializable variants produce
their JSON text, a `datetime` raises `TypeError` (modelled as `none`). -/
def pyJsonText : Value → Option String
  | .none => some "null"
  | .int n => some (toString n)
  | .str s => some (jstrRender s)
  | .bool b => some (if b then "true" else "false")
  | .timestamp _ _ => Option.none
  | .json j => some (jdumps j)

/-- Model of `value.isoformat()`: defined for `datetime` values, an
`AttributeError` (modelled as `none`) otherwise. -/
def isoformat : Value → Option String
  | .timestamp d t => some (d ++ "T" ++ t)
  | _ => Option.none

/-- The branch logic of `Table._stringify_value` after the `None` check,
given the declared column type (source lines 212–225): the format string
becomes quoted for `character*` / `geography*` / `json*` types, `json*`
values are first serialized with `json.dumps`, `timestamp*` types force
the quoted format and replace the value by `value.isoformat()`, and the
(possibly replaced) value is finally rendered with `str`.  `Option.none`
models a raised encoding error. -/
def stringify_core (coltype : String) (value : Value) : Option String :=
  let fmt1 := startswith coltype "character" || startswith coltype "geography" ||
              startswith coltype "json"
  let v1? : Option Value :=
    if startswith coltype "json" then (pyJsonText value).map Value.str else some value
  match v1? with
  | Option.none => Option.none
  | some v1 =>
    let fmt2 := fmt1 || startswith coltype "timestamp"
    let v2? : Option Value :=
      if startswith coltype "timestamp" then (isoformat v1).map Value.str else some v1
    match v2? with
    | Option.none => Option.none
    | some v2 => some (if fmt2 then "'" ++ pyStr v2 ++ "'" else pyStr v2)

/-- Model of `Table._stringify_value` specialised to a known column type: a `None`
value short-circuits to the literal `NULL` before the type is consulted
(source line 210). -/
def stringify_typed (coltype : String) (value : Value) : Option String :=
  match value with
  | Value.none => some "NULL"
  | v => stringify_core coltype v

/-- Model of `Table._stringify_value(value, colidx)` (source lines 209–225): the
`None` check precedes the `self._coltypes[colidx]` lookup, whose
out-of-range failure is modelled as `Option.none`. -/
def stringify_value (coltypes : List String) (value : Value) (colidx : Nat) :
    Option String :=
  match value with
  | Value.none => some "NULL"
  | v =>
    match coltypes.get? colidx with
    | Option.none => Option.none
    | some ct => stringify_core ct v

/-- Model of `Table.ididx` (source lines 134–142): scan `columns` with a counter
starting at 0, returning the counter at the first column named `id`; when
no column is named `id` the scan falls through and the counter — now equal
to the number of columns — is returned. -/
def ididx : List String → Nat
  | [] => 0
  | c :: cs => if c = "id" then 0 else 1 + ididx cs

/-- Model of `row[self.ididx]` (source line 192): Python list indexing, `none`
modelling the `IndexError` raised on an out-of-range position. -/
def captured_value (columns : List String) (row : List Value) : Option Value :=
  row.get? (ididx columns)

/-- One exported table (`class Table`, source lines 103–113): name, column
names with their aligned declared types (both cached from one catalog
query), the optional row limit (`None` for a full dump), the captured ids
(`None` until a sampled dump has run), and the restriction dict
`_foreign_tables`, an insertion-ordered map from sampled-table name to the
tuple of allowed foreign-key values. -/
structure Table where
  name : String
  columns : List String
  coltypes : List String
  limit : Option Nat
  ids : Option (List Value)
  foreign_tables : List (String × List Value)
deriving DecidableEq

/-- Model of `name in self._foreign_tables`: dict key membership. -/
def hasFT (fts : List (String × List Value)) (name : String) : Bool :=
  fts.any (fun p => p.1 == name)

/-- Model of `self._foreign_tables[name]`: dict lookup, as an option. -/
def lookupFT (fts : List (String × List Value)) (name : String) :
    Option (List Value) :=
  (fts.find? (fun p => p.1 == name)).map (fun p => p.2)

/-- Model of `Table.add_foreign_table` (source lines 162–166): a name already
present raises `RuntimeError('no bueno')` before anything is written, so
the table comes back unchanged; `tuple(ids)` then raises `TypeError` when
the ids are still `None`; otherwise the tuple is stored under the name. -/
def add_foreign_table (t : Table) (name : String) (ids : Option (List Value)) :
    Table × Option PyError :=
  if hasFT t.foreign_tables name then
    (t, some (PyError.runtimeError "no bueno"))
  else
    match ids with
    | Option.none => (t, some PyError.typeError)
    | some l =>
      ({ t with foreign_tables := t.foreign_tables ++ [(name, l)] }, Option.none)

/-- Model of `Table._build_where_clause` (source lines 176–182): one
`{foreign_table}_id in {ids}` fragment per restriction entry — the column
name unquoted, the ids interpolated via Python's tuple `str` — joined with
`' AND '` behind `WHERE`, or the empty string when there are no
restrictions. -/
def build_where_clause (fts : List (String × List Value)) : String :=
  let ws := fts.map (fun p => p.1 ++ "_id in " ++ pyTupleRepr p.2)
  if ws.length > 0 then "WHERE " ++ joinWith " AND " ws else ""

/-- Model of `'"{}"'.format(c)`: the quoting of one column name in `Table.dump`
(source line 145). -/
def quote_col (c : String) : String := "\"" ++ c ++ "\""

/-- Model of `','.join('"{}"'.format(c) for c in self.columns)` (source line 145). -/
def columns_sql (columns : List String) : String :=
  joinWith "," (columns.map quote_col)

/-- Model of `Table._mogrify_row` (source lines 205–207): stringify each value with
its column index and parenthesize the comma-joined results; `none` models
a raised encoding error. -/
def mogrify_row (coltypes : List String) (row : List Value) : Option String :=
  match row.enum.mapM (fun p => stringify_value coltypes p.2 p.1) with
  | Option.none => Option.none
  | some strs => some ("(" ++ joinWith "," strs ++ ")")

/-- The loop of `Table._select_and_insert` (source lines 189–203) over the
rows the cursor returned: per row, capture `row[ididx]` (its `IndexError`
aborts with nothing further written), render the row, and append `;` when
the 1-based write counter equals the row count, `,` otherwise; after the
loop one blank line.  Returns the text written, the ids accumulated, and
the error if one was raised. -/
def sai_go (coltypes : List String) (idIdx rowcount : Nat) :
    List (List Value) → Nat → String × List Value × Option PyError
  | [], _ => ("\n", [], Option.none)
  | row :: rest, written =>
    match row.get? idIdx with
    | Option.none => ("", [], some PyError.indexError)
    | some v =>
      match mogrify_row coltypes row with
      | Option.none => ("", [v], some PyError.typeError)
      | some rowstr =>
        let piece := rowstr ++ (if written = rowcount then ";\n" else ",\n")
        match sai_go coltypes idIdx rowcount rest (written + 1) with
        | (out, ids, err) => (piece ++ out, v :: ids, err)

/-- Model of `Table._select_and_insert` (source lines 184–203): write the
`INSERT INTO <table> (<quoted columns>) VALUES ` header, run
`SELECT … LIMIT limit` — modelled as taking the first `limit` of the
table's rows — and then the per-row loop above with the cursor's row
count. -/
def select_and_insert (name : String) (columns coltypes : List String)
    (limit : Nat) (dbRows : List (List Value)) :
    String × List Value × Option PyError :=
  let rows := dbRows.take limit
  match sai_go coltypes (ididx columns) rows.length rows 1 with
  | (out, ids, err) =>
    ("INSERT INTO " ++ name ++ " (" ++ columns_sql columns ++ ") VALUES \n" ++ out,
     ids, err)

/-- The inner loop of `set_sampled_ids` (source lines 235–237) for one
sampled table: walk the full tables and attach the sampled table's name
and ids to each whose column list contains `<sampled>_id`; a raised
exception aborts the walk, leaving the remaining tables untouched. -/
def attach_to_full (s : Table) : List Table → List Table × Option PyError
  | [] => ([], Option.none)
  | t :: ts =>
    if s.name ++ "_id" ∈ t.columns then
      match add_foreign_table t s.name s.ids with
      | (t2, Option.none) =>
        match attach_to_full s ts with
        | (ts2, err) => (t2 :: ts2, err)
      | (t2, some e) => (t2 :: ts, some e)
    else
      match attach_to_full s ts with
      | (ts2, err) => (t :: ts2, err)

/-- Model of `set_sampled_ids` (source lines 228–237): the outer loop over the
sampled tables, each pass running `attach_to_full`; an exception aborts
the remaining passes. -/
def set_sampled_ids (sampled full : List Table) : List Table × Option PyError :=
  match sampled with
  | [] => (full, Option.none)
  | s :: ss =>
    match attach_to_full s full with
    | (full2, Option.none) => set_sampled_ids ss full2
    | (full2, some e) => (full2, some e)

/-- One observable step of `main` (source lines 245–270), at the
granularity of the statements it writes to the output stream. -/
inductive Event where
  | begin_dump : Event
  | drop_constraints : String → Event
  | dump_sampled : String → Event
  | run_filter : Event
  | dump_full : String → Event
  | create_constraints : String → Event
  | end_dump : Event
deriving DecidableEq

/-- Model of `Event.drop_constraints` recogniser. -/
def isDrop : Event → Bool
  | .drop_constraints _ => true
  | _ => false

/-- Model of `Event.dump_sampled` recogniser. -/
def isDumpSampled : Event → Bool
  | .dump_sampled _ => true
  | _ => false

/-- Model of `Event.dump_full` recogniser. -/
def isDumpFull : Event → Bool
  | .dump_full _ => true
  | _ => false

/-- A data-writing event: a sampled or full table dump. -/
def isData (e : Event) : Bool := isDumpSampled e || isDumpFull e

/-- Model of `Event.run_filter` recogniser. -/
def isRunFilter : Event → Bool
  | .run_filter => true
  | _ => false

/-- Model of `Event.create_constraints` recogniser. -/
def isCreate : Event → Bool
  | .create_constraints _ => true
  | _ => false

/-- The sequence of steps `main` performs (source lines 256–268): the dump
preamble, per exported table (full and sampled) the foreign-key drop
statements, the sampled-table dumps that capture ids, the single
`set_sampled_ids` pass, the full-table dumps, per exported table the
foreign-key recreate statements, and the dump postamble. -/
def main_trace (full sampled : List Table) : List Event :=
  let tables := full ++ sampled
  [Event.begin_dump]
    ++ tables.map (fun t => Event.drop_constraints t.name)
    ++ sampled.map (fun t => Event.dump_sampled t.name)
    ++ [Event.run_filter]
    ++ full.map (fun t => Event.dump_full t.name)
    ++ tables.map (fun t => Event.create_constraints t.name)
    ++ [Event.end_dump]

/-! ## General helper lemmas -/

/-- Appending a fixed string on the left is injective. -/
theorem str_append_right_ne (a b c : String) (h : b ≠ c) : a ++ b ≠ a ++ c := by
  intro he
  apply h
  have hd := congrArg String.data he
  simp only [String.data_append] at hd
  have hbc := List.append_cancel_left hd
  cases b
  cases c
  exact congrArg String.mk hbc

/-- A predicate that fails everywhere in the left part of an append forces
any index where it holds past that part. -/
theorem seg_ge {α : Type} (P : α → Bool) :
    ∀ (l₁ l₂ : List α), (∀ e ∈ l₁, P e = false) →
      ∀ (i : Nat) (hi : i < (l₁ ++ l₂).length),
        P ((l₁ ++ l₂).get ⟨i, hi⟩) = true → l₁.length ≤ i := by
  intro l₁
  induction l₁ with
  | nil => intro l₂ _ i _ _; simp
  | cons a l ih =>
    intro l₂ h i hi hP
    match i with
    | 0 =>
      have : P a = true := hP
      have := h a (List.mem_cons_self a l)
      simp [this] at hP
    | i + 1 =>
      have hle := ih l₂ (fun e he => h e (List.mem_cons_of_mem a he)) i
        (by simpa using Nat.lt_of_succ_lt_succ (by simpa using hi)) hP
      simpa using Nat.succ_le_succ hle

/-- A predicate that fails everywhere in the right part of an append forces
any index where it holds to stay inside the left part. -/
theorem seg_lt {α : Type} (P : α → Bool) :
    ∀ (l₁ l₂ : List α), (∀ e ∈ l₂, P e = false) →
      ∀ (i : Nat) (hi : i < (l₁ ++ l₂).length),
        P ((l₁ ++ l₂).get ⟨i, hi⟩) = true → i < l₁.length := by
  intro l₁
  induction l₁ with
  | nil =>
    intro l₂ h i hi hP
    exfalso
    have hP' : P (l₂.get ⟨i, by simpa using hi⟩) = true := hP
    have hm2 : l₂.get ⟨i, by simpa using hi⟩ ∈ l₂ := List.get_mem l₂ i _
    exact absurd (h _ hm2) (by rw [hP']; simp)
  | cons a l ih =>
    intro l₂ h i hi hP
    match i with
    | 0 => simp
    | i + 1 =>
      have := ih l₂ h i (by simpa using Nat.lt_of_succ_lt_succ (by simpa using hi)) hP
      simpa using Nat.succ_lt_succ this

/-! ## Claim theorems -/

/-- C6: rendering a Python `None` value yields the literal string `NULL`,
independent of the declared column type (even of whether the column index
is in range) and without quoting. -/
theorem null_renders_null (coltypes : List String) (colidx : Nat) :
    stringify_value coltypes Value.none colidx = some "NULL" := rfl

/-- The id-column scan returns the index of the first column named `id`. -/
theorem ididx_mem (columns : List String) (h : "id" ∈ columns) :
    columns.get? (ididx columns) = some "id" ∧
    ∀ j, j < ididx columns → columns.get? j ≠ some "id" := by
  induction columns with
  | nil => simp at h
  | cons c cs ih =>
    by_cases hc : c = "id"
    · subst hc
      refine ⟨by simp [ididx], ?_⟩
      intro j hj
      simp [ididx] at hj
    · have hmem : "id" ∈ cs := by
        rcases List.mem_cons.mp h with h' | h'
        · exact absurd h'.symm hc
        · exact h'
      obtain ⟨h1, h2⟩ := ih hmem
      have hidx : ididx (c :: cs) = ididx cs + 1 := by
        simp [ididx, hc, Nat.add_comm]
      refine ⟨?_, ?_⟩
      · rw [hidx]
        simpa using h1
      · intro j hj
        rw [hidx] at hj
        match j with
        | 0 =>
          simp only [List.get?_cons_zero, ne_eq, Option.some.injEq]
          exact hc
        | j + 1 =>
          have := h2 j (Nat.lt_of_succ_lt_succ hj)
          simpa using this

/-- When no column is named `id`, the scan falls through and returns the
number of columns. -/
theorem ididx_not_mem (columns : List String) (h : "id" ∉ columns) :
    ididx columns = columns.length := by
  induction columns with
  | nil => rfl
  | cons c cs ih =>
    have hc : c ≠ "id" := fun he => h (he ▸ List.mem_cons_self c cs)
    have hcs : "id" ∉ cs := fun hm => h (List.mem_cons_of_mem c hm)
    simp [ididx, hc, ih hcs, Nat.add_comm]

/-- C4 counterexample: for a table whose columns are `["name"]` (no column
named `id`), the identifier position is `1`, not the claimed `0`, and
capturing from the one-column row `["bob"]` is an out-of-range access
(`none`), not the row's first element. -/
theorem ididx_default_counterexample :
    ididx ["name"] = 1 ∧ ididx ["name"] ≠ 0 ∧
    captured_value ["name"] [Value.str "bob"] = Option.none ∧
    captured_value ["name"] [Value.str "bob"] ≠ some (Value.str "bob") := by
  refine ⟨rfl, by decide, rfl, ?_⟩
  intro h
  exact Option.noConfusion h

/-- C4 (amended): the identifier-column position is the index of the first
column literally named `id`; when no column is named `id` the position
equals the number of columns — one past the last valid index — so for any
row no wider than the column list the captured value is an out-of-range
access (`IndexError`), not the row's first element. -/
theorem ididx_amended_spec (columns : List String) :
    ("id" ∈ columns →
       columns.get? (ididx columns) = some "id" ∧
       ∀ j, j < ididx columns → columns.get? j ≠ some "id") ∧
    ("id" ∉ columns →
       ididx columns = columns.length ∧
       ∀ row : List Value, row.length ≤ columns.length →
         captured_value columns row = Option.none) := by
  refine ⟨ididx_mem columns, ?_⟩
  intro h
  refine ⟨ididx_not_mem columns h, ?_⟩
  intro row hrow
  have : row.get? (ididx columns) = Option.none := by
    rw [ididx_not_mem columns h]
    exact List.get?_eq_none.mpr hrow
  exact this

/-- C4 witness: both branches of the amended statement at concrete tables:
`["id","name"]` locates the id column at 0; `["name"]` yields position 1
and an out-of-range capture on a one-cell row. -/
theorem ididx_amended_spec_witness :
    (["id", "name"].get? (ididx ["id", "name"]) = some "id") ∧
    (ididx ["name"] = (["name"] : List String).length ∧
     captured_value ["name"] [Value.int 7] = Option.none) := by
  refine ⟨((ididx_amended_spec ["id", "name"]).1 (by decide)).1, ?_, ?_⟩
  · exact ((ididx_amended_spec ["name"]).2 (by decide)).1
  · exact ((ididx_amended_spec ["name"]).2 (by decide)).2 [Value.int 7] (by decide)

/-- C5 counterexample: with one restriction `users → (1, 2)`, the built
predicate is `WHERE users_id in (1, 2)` — the foreign-key column name is
not quoted (and the keyword is a lower-case `in`), contradicting the
claimed `WHERE "users_id" IN (1, 2)` form. -/
theorem where_clause_quoting_counterexample :
    build_where_clause [("users", [Value.int 1, Value.int 2])] =
      "WHERE users_id in (1, 2)" ∧
    build_where_clause [("users", [Value.int 1, Value.int 2])] ≠
      "WHERE \"users_id\" IN (1, 2)" := by
  exact ⟨rfl, by decide⟩

/-- C5 (amended): a full table with zero restrictions gets the empty
string (no `WHERE` clause); with one or more restrictions the predicate is
`WHERE ` followed by the ` AND `-conjunction of one clause per referenced
sampled table, each of the unquoted form `<table>_id in <ids>` with the
id tuple rendered as Python renders a tuple. -/
theorem where_clause_amended_spec (fts : List (String × List Value)) :
    (fts = [] → build_where_clause fts = "") ∧
    (fts ≠ [] → build_where_clause fts =
       "WHERE " ++ joinWith " AND "
         (fts.map (fun p => p.1 ++ "_id in " ++ pyTupleRepr p.2))) := by
  cases fts with
  | nil => exact ⟨fun _ => rfl, fun h => absurd rfl h⟩
  | cons p l =>
    refine ⟨fun h => List.noConfusion h, fun _ => ?_⟩
    simp [build_where_clause]

/-- C5 witness: the amended statement at the empty restriction map and at
a concrete singleton restriction map. -/
theorem where_clause_amended_spec_witness :
    build_where_clause [] = "" ∧
    build_where_clause [("users", [Value.int 7])] =
      "WHERE " ++ joinWith " AND "
        ([("users", [Value.int 7])].map
          (fun p => p.1 ++ "_id in " ++ pyTupleRepr p.2)) := by
  exact ⟨(where_clause_amended_spec []).1 rfl,
         (where_clause_amended_spec [("users", [Value.int 7])]).2 (by simp)⟩

/-- C9: a full table with exactly one restriction whose id tuple has the
single integer element `v` gets the predicate
`WHERE <table>_id in (v,)` — Python's one-element tuple rendering with the
trailing comma — and not the comma-less `(v)` form. -/
theorem singleton_tuple_trailing_comma (name : String) (v : Int) :
    build_where_clause [(name, [Value.int v])] =
      "WHERE " ++ name ++ "_id in " ++ "(" ++ toString v ++ ",)" ∧
    build_where_clause [(name, [Value.int v])] ≠
      "WHERE " ++ name ++ "_id in " ++ "(" ++ toString v ++ ")" := by
  have hm : ∀ X : String, ("_id in " : String) ++ ("(" ++ X) = "_id in (" ++ X := by
    intro X
    rw [← String.append_assoc]
    exact congrArg (fun s => s ++ X)
      (show ("_id in " ++ "(" : String) = "_id in (" from rfl)
  have h1 : build_where_clause [(name, [Value.int v])] =
      "WHERE " ++ name ++ "_id in " ++ "(" ++ toString v ++ ",)" := by
    simp [build_where_clause, pyTupleRepr, pyRepr, joinWith, String.append_assoc, hm]
  refine ⟨h1, ?_⟩
  rw [h1]
  exact str_append_right_ne _ _ _ (by decide)

/-- For a value that is not `None`, the stringify method runs its
type-dispatch core. -/
theorem stringify_typed_ne_none (coltype : String) (v : Value)
    (hv : v ≠ Value.none) :
    stringify_typed coltype v = stringify_core coltype v := by
  cases v
  · exact absurd rfl hv
  · rfl
  · rfl
  · rfl
  · rfl
  · rfl

/-- C7: for a non-null value, a `json`-prefixed declared type serializes
the value to JSON text and single-quotes it, a `timestamp`-prefixed type
renders the value via `isoformat` (ISO-8601) and single-quotes it, a
`character`- or `geography`-prefixed type single-quotes the native string
form, and every other type yields the unquoted native string form.
Failed serialization (`none`) propagates. -/
theorem stringify_type_dispatch (coltype : String) (v : Value)
    (hv : v ≠ Value.none) :
    (startswith coltype "json" = true → startswith coltype "timestamp" = false →
       stringify_typed coltype v =
         (pyJsonText v).map (fun s => "'" ++ s ++ "'")) ∧
    (startswith coltype "timestamp" = true → startswith coltype "json" = false →
       stringify_typed coltype v =
         (isoformat v).map (fun s => "'" ++ s ++ "'")) ∧
    ((startswith coltype "character" = true ∨
        startswith coltype "geography" = true) →
       startswith coltype "json" = false → startswith coltype "timestamp" = false →
       stringify_typed coltype v = some ("'" ++ pyStr v ++ "'")) ∧
    (startswith coltype "character" = false →
       startswith coltype "geography" = false →
       startswith coltype "json" = false → startswith coltype "timestamp" = false →
       stringify_typed coltype v = some (pyStr v)) := by
  have hcore := stringify_typed_ne_none coltype v hv
  refine ⟨fun hj ht => ?_, fun ht hj => ?_, fun hc hj ht => ?_,
          fun hc hg hj ht => ?_⟩
  · rw [hcore]
    cases hpj : pyJsonText v with
    | none => simp [stringify_core, hj, ht, hpj]
    | some s => simp [stringify_core, hj, ht, hpj, pyStr]
  · rw [hcore]
    cases hio : isoformat v with
    | none => simp [stringify_core, hj, ht, hio]
    | some s => simp [stringify_core, hj, ht, hio, pyStr]
  · rw [hcore]
    rcases hc with hc | hc
    · simp [stringify_core, hc, hj, ht]
    · simp [stringify_core, hc, hj, ht]
  · rw [hcore]
    simp [stringify_core, hc, hg, hj, ht]

/-- C7 witness: the four dispatch branches at concrete inputs, including
the specified scenario — a JSON-typed column holding the object with key
`a` and value `1` renders as the single-quoted JSON text. -/
theorem stringify_type_dispatch_witness :
    stringify_typed "json"
        (Value.json (JsonVal.jobj (JsonObj.cons "a" (JsonVal.jint 1) JsonObj.nil)))
      = some "'\x7b\"a\": 1\x7d'" ∧
    stringify_typed "timestamp without time zone"
        (Value.timestamp "2023-01-02" "03:04:05")
      = some "'2023-01-02T03:04:05'" ∧
    stringify_typed "character varying(255)" (Value.str "abc") = some "'abc'" ∧
    stringify_typed "integer" (Value.int 5) = some "5" := by
  refine ⟨?_, ?_, ?_, ?_⟩
  · exact ((stringify_type_dispatch "json" _ (by decide)).1 rfl rfl).trans rfl
  · exact ((stringify_type_dispatch "timestamp without time zone" _
      (by decide)).2.1 rfl rfl).trans rfl
  · exact (stringify_type_dispatch "character varying(255)" _
      (by decide)).2.2.1 (Or.inl rfl) rfl rfl
  · exact (stringify_type_dispatch "integer" _ (by decide)).2.2.2 rfl rfl rfl rfl

/-- On a successful run the id list collects exactly the id-column entry
of each row the loop consumed, in order. -/
theorem sai_go_ids (coltypes : List String) (idIdx rowcount : Nat) :
    ∀ (rows : List (List Value)) (written : Nat) (out : String)
      (ids : List Value),
      sai_go coltypes idIdx rowcount rows written = (out, ids, Option.none) →
      ids.map some = rows.map (fun r => r.get? idIdx) := by
  intro rows
  induction rows with
  | nil =>
    intro written out ids h
    simp only [sai_go, Prod.mk.injEq] at h
    rw [← h.2.1]
    rfl
  | cons row rest ih =>
    intro written out ids h
    cases hg : row.get? idIdx with
    | none =>
      rw [List.get?_eq_getElem?] at hg
      simp [sai_go, hg] at h
    | some v =>
      have hg2 : row[idIdx]? = some v := by
        rw [← List.get?_eq_getElem?]
        exact hg
      cases hm : mogrify_row coltypes row with
      | none => simp [sai_go, hg2, hm] at h
      | some rowstr =>
        rcases hrec : sai_go coltypes idIdx rowcount rest (written + 1) with
          ⟨out2, ids2, err2⟩
        simp only [sai_go, hg, hm, hrec, Prod.mk.injEq] at h
        obtain ⟨_, hids, herr⟩ := h
        rw [herr] at hrec
        rw [← hids]
        simp only [List.map_cons]
        rw [hg]
        exact congrArg (List.cons (some v)) (ih (written + 1) out2 ids2 hrec)

/-- C3: on a successful sampled dump the number of captured ids is at most
the row limit, with exactly one id — the row's id-column value — per
emitted row in read order; in particular the specified `users` scenario
(limit 2, columns `id`, `name`, three rows) captures ids `[1, 2]` and
emits an insert block of exactly the first two row tuples in the original
column order. -/
theorem sampled_capture_spec (name : String) (columns coltypes : List String)
    (limit : Nat) (dbRows : List (List Value)) :
    (∀ out ids,
       select_and_insert name columns coltypes limit dbRows =
         (out, ids, Option.none) →
       ids.length ≤ limit ∧
       ids.map some = (dbRows.take limit).map (fun r => r.get? (ididx columns))) ∧
    (select_and_insert "users" ["id", "name"] ["integer", "text"] 2
        [[Value.int 1, Value.str "a"], [Value.int 2, Value.str "b"],
         [Value.int 3, Value.str "c"]] =
      ("INSERT INTO users (\"id\",\"name\") VALUES \n(1,a),\n(2,b);\n\n",
       [Value.int 1, Value.int 2], Option.none)) := by
  constructor
  · intro out ids h
    rcases hrec : sai_go coltypes (ididx columns) (dbRows.take limit).length
        (dbRows.take limit) 1 with ⟨out2, ids2, err2⟩
    simp only [select_and_insert, hrec, Prod.mk.injEq] at h
    obtain ⟨_, hids, herr⟩ := h
    rw [herr] at hrec
    have hmap := sai_go_ids coltypes (ididx columns) (dbRows.take limit).length
      (dbRows.take limit) 1 out2 ids2 hrec
    rw [hids] at hmap
    constructor
    · have hlen := congrArg List.length hmap
      simp only [List.length_map] at hlen
      rw [hlen, List.length_take]
      exact Nat.min_le_left limit dbRows.length
    · exact hmap
  · rfl

/-- C3 witness: the general bound applied at the concrete `users`
scenario. -/
theorem sampled_capture_spec_witness :
    ([Value.int 1, Value.int 2] : List Value).length ≤ 2 ∧
    ([Value.int 1, Value.int 2] : List Value).map some =
      (([[Value.int 1, Value.str "a"], [Value.int 2, Value.str "b"],
         [Value.int 3, Value.str "c"]] : List (List Value)).take 2).map
        (fun r => r.get? (ididx ["id", "name"])) :=
  (sampled_capture_spec "users" ["id", "name"] ["integer", "text"] 2
      [[Value.int 1, Value.str "a"], [Value.int 2, Value.str "b"],
       [Value.int 3, Value.str "c"]]).1
    "INSERT INTO users (\"id\",\"name\") VALUES \n(1,a),\n(2,b);\n\n"
    [Value.int 1, Value.int 2] rfl

/-- C8: attaching a restriction under a sampled-table name already present
in the restriction map raises `RuntimeError` (a caller-logic error,
distinct by construction from the I/O error family) and leaves the map
unchanged; attaching a fresh name succeeds and appends the ids, stored as
the tuple built from them, under that name. -/
theorem add_foreign_table_spec (t : Table) (name : String) (l : List Value) :
    (hasFT t.foreign_tables name = true →
       add_foreign_table t name (some l) =
         (t, some (PyError.runtimeError "no bueno")) ∧
       ∀ m, PyError.runtimeError m ≠ PyError.ioError) ∧
    (hasFT t.foreign_tables name = false →
       add_foreign_table t name (some l) =
         ({ t with foreign_tables := t.foreign_tables ++ [(name, l)] },
          Option.none)) := by
  refine ⟨fun h => ⟨?_, fun m hm => PyError.noConfusion hm⟩, fun h => ?_⟩
  · simp [add_foreign_table, h]
  · simp [add_foreign_table, h]

/-- C8 witness: a duplicate attachment on a concrete table errors and
leaves the table as it was; a fresh attachment on a concrete table stores
the ids. -/
theorem add_foreign_table_spec_witness :
    (add_foreign_table
        ⟨"orders", ["id", "user_id"], ["integer", "integer"], Option.none,
         Option.none, [("users", [Value.int 1])]⟩
        "users" (some [Value.int 2]) =
      (⟨"orders", ["id", "user_id"], ["integer", "integer"], Option.none,
        Option.none, [("users", [Value.int 1])]⟩,
       some (PyError.runtimeError "no bueno"))) ∧
    (add_foreign_table
        ⟨"orders", ["id", "user_id"], ["integer", "integer"], Option.none,
         Option.none, []⟩
        "users" (some [Value.int 2]) =
      (⟨"orders", ["id", "user_id"], ["integer", "integer"], Option.none,
        Option.none, [("users", [Value.int 2])]⟩,
       Option.none)) := by
  constructor
  · exact ((add_foreign_table_spec _ "users" [Value.int 2]).1 (by decide)).1
  · exact (add_foreign_table_spec
      ⟨"orders", ["id", "user_id"], ["integer", "integer"], Option.none,
       Option.none, []⟩ "users" [Value.int 2]).2 (by decide)

/-- The effect of one successful attachment pass on one full table:
append the sampled table's entry when the conventional foreign-key column
is present, otherwise leave the table alone. -/
def upd1 (s : Table) (l : List Value) (t : Table) : Table :=
  if s.name ++ "_id" ∈ t.columns then
    { t with foreign_tables := t.foreign_tables ++ [(s.name, l)] }
  else t

/-- The restriction entries a list of sampled tables contributes to one
full table, in sampled-table order. -/
def restrOf (t : Table) : List Table → List (String × List Value)
  | [] => []
  | s :: ss =>
    if s.name ++ "_id" ∈ t.columns then
      (s.name, s.ids.getD []) :: restrOf t ss
    else restrOf t ss

/-- The cumulative effect of the whole referential filter on one full
table. -/
def updAll (sampled : List Table) (t : Table) : Table :=
  { t with foreign_tables := t.foreign_tables ++ restrOf t sampled }

/-- Dict lookup on a cons cell. -/
theorem lookupFT_cons (p : String × List Value) (l : List (String × List Value))
    (n : String) :
    lookupFT (p :: l) n =
      if (p.1 == n) = true then some p.2 else lookupFT l n := by
  cases hpb : (p.1 == n) with
  | true => simp [lookupFT, List.find?, hpb]
  | false => simp [lookupFT, List.find?, hpb]

/-- Looking a key up past an append whose left part does not hold it. -/
theorem lookupFT_append_left (a b : List (String × List Value)) (n : String)
    (h : hasFT a n = false) : lookupFT (a ++ b) n = lookupFT b n := by
  induction a with
  | nil => rfl
  | cons p l ih =>
    by_cases hp : p.1 = n
    · simp [hasFT, hp] at h
    · have hb : (p.1 == n) = false := beq_eq_false_iff_ne.mpr hp
      have h2 : hasFT l n = false := by
        simpa [hasFT, hb] using h
      rw [List.cons_append, lookupFT_cons]
      simp [hb, ih h2]

/-- No sampled table named `n` contributes, so the restriction entries
hold no key `n`. -/
theorem lookupFT_restrOf_absent (t : Table) :
    ∀ (sampled : List Table) (n : String), (∀ u ∈ sampled, u.name ≠ n) →
      lookupFT (restrOf t sampled) n = Option.none := by
  intro sampled
  induction sampled with
  | nil => intro n _; rfl
  | cons s0 ss ih =>
    intro n h
    have hb : (s0.name == n) = false :=
      beq_eq_false_iff_ne.mpr (h s0 (List.mem_cons_self s0 ss))
    have htail := ih n (fun u hu => h u (List.mem_cons_of_mem s0 hu))
    by_cases hm : s0.name ++ "_id" ∈ t.columns
    · rw [restrOf, if_pos hm, lookupFT_cons]
      simp [hb, htail]
    · rw [restrOf, if_neg hm]
      exact htail

/-- A sampled table whose conventional foreign-key column the full table
has contributes exactly its captured ids under its name. -/
theorem lookupFT_restrOf_pos (t : Table) :
    ∀ (sampled : List Table) (s : Table), s ∈ sampled →
      List.Pairwise (fun a b => a.name ≠ b.name) sampled →
      s.name ++ "_id" ∈ t.columns →
      lookupFT (restrOf t sampled) s.name = some (s.ids.getD []) := by
  intro sampled
  induction sampled with
  | nil => intro s hs; simp at hs
  | cons s0 ss ih =>
    intro s hs hnd hm
    rcases List.mem_cons.mp hs with rfl | hs2
    · rw [restrOf, if_pos hm, lookupFT_cons]
      simp
    · have hne : s0.name ≠ s.name := (List.pairwise_cons.mp hnd).1 s hs2
      have hb : (s0.name == s.name) = false := beq_eq_false_iff_ne.mpr hne
      have htail := ih s hs2 (List.pairwise_cons.mp hnd).2 hm
      by_cases hm0 : s0.name ++ "_id" ∈ t.columns
      · rw [restrOf, if_pos hm0, lookupFT_cons]
        simp [hb, htail]
      · rw [restrOf, if_neg hm0]
        exact htail

/-- A sampled table whose conventional foreign-key column the full table
lacks contributes nothing under its name. -/
theorem lookupFT_restrOf_neg (t : Table) :
    ∀ (sampled : List Table) (s : Table), s ∈ sampled →
      List.Pairwise (fun a b => a.name ≠ b.name) sampled →
      s.name ++ "_id" ∉ t.columns →
      lookupFT (restrOf t sampled) s.name = Option.none := by
  intro sampled
  induction sampled with
  | nil => intro s hs; simp at hs
  | cons s0 ss ih =>
    intro s hs hnd hm
    rcases List.mem_cons.mp hs with rfl | hs2
    · rw [restrOf, if_neg hm]
      exact lookupFT_restrOf_absent t ss s.name
        (fun u hu => ((List.pairwise_cons.mp hnd).1 u hu).symm)
    · have hne : s0.name ≠ s.name := (List.pairwise_cons.mp hnd).1 s hs2
      have hb : (s0.name == s.name) = false := beq_eq_false_iff_ne.mpr hne
      have htail := ih s hs2 (List.pairwise_cons.mp hnd).2 hm
      by_cases hm0 : s0.name ++ "_id" ∈ t.columns
      · rw [restrOf, if_pos hm0, lookupFT_cons]
        simp [hb, htail]
      · rw [restrOf, if_neg hm0]
        exact htail

/-- Key membership over an append. -/
theorem hasFT_append (a b : List (String × List Value)) (n : String) :
    hasFT (a ++ b) n = (hasFT a n || hasFT b n) := by
  simp [hasFT, List.any_append]

/-- One attachment pass succeeds and applies `upd1` pointwise when the
sampled table has its ids and no full table already holds its name. -/
theorem attach_to_full_ok (s : Table) (l : List Value) (hl : s.ids = some l) :
    ∀ full : List Table,
      (∀ t ∈ full, hasFT t.foreign_tables s.name = false) →
      attach_to_full s full = (full.map (upd1 s l), Option.none) := by
  intro full
  induction full with
  | nil => intro _; rfl
  | cons t ts ih =>
    intro h
    have ht := h t (List.mem_cons_self t ts)
    have hts := ih (fun u hu => h u (List.mem_cons_of_mem t hu))
    by_cases hm : s.name ++ "_id" ∈ t.columns
    · simp [attach_to_full, hm, add_foreign_table, ht, hl, hts, upd1]
    · simp [attach_to_full, hm, hts, upd1]

/-- The empty filter changes nothing. -/
theorem updAll_nil (t : Table) : updAll [] t = t := by
  cases t
  simp [updAll, restrOf]

/-- The restriction entries a table collects depend only on its columns,
not on its restriction map. -/
theorem restrOf_ft (t : Table) (fts : List (String × List Value)) :
    ∀ ss : List Table,
      restrOf { t with foreign_tables := fts } ss = restrOf t ss := by
  intro ss
  induction ss with
  | nil => rfl
  | cons s0 ss2 ih => simp [restrOf, ih]

/-- Peeling one sampled table off the cumulative filter effect. -/
theorem updAll_cons (s : Table) (l : List Value) (ss : List Table) (t : Table)
    (hl : s.ids = some l) :
    updAll (s :: ss) t = updAll ss (upd1 s l t) := by
  by_cases hm : s.name ++ "_id" ∈ t.columns
  · simp [updAll, restrOf, upd1, hm, hl, List.append_assoc, restrOf_ft]
  · simp [updAll, restrOf, upd1, hm]

/-- Under distinct sampled names, ids present, and fresh restriction maps,
`set_sampled_ids` raises nothing and applies the cumulative filter effect
to every full table. -/
theorem set_sampled_ids_ok :
    ∀ (sampled full : List Table),
      (∀ s ∈ sampled, s.ids.isSome = true) →
      List.Pairwise (fun a b => a.name ≠ b.name) sampled →
      (∀ s ∈ sampled, ∀ t ∈ full, hasFT t.foreign_tables s.name = false) →
      set_sampled_ids sampled full = (full.map (updAll sampled), Option.none) := by
  intro sampled
  induction sampled with
  | nil =>
    intro full _ _ _
    have hmap : full.map (updAll []) = full := by
      induction full with
      | nil => rfl
      | cons t ts iht => simp [updAll_nil, iht]
    simp [set_sampled_ids, hmap]
  | cons s ss ih =>
    intro full hids hnd hfresh
    obtain ⟨l, hl⟩ := Option.isSome_iff_exists.mp
      (hids s (List.mem_cons_self s ss))
    have hfs : ∀ t ∈ full, hasFT t.foreign_tables s.name = false :=
      fun t ht => hfresh s (List.mem_cons_self s ss) t ht
    have hatt := attach_to_full_ok s l hl full hfs
    have hnames : ∀ b ∈ ss, s.name ≠ b.name := (List.pairwise_cons.mp hnd).1
    have hfresh2 : ∀ u ∈ ss, ∀ t2 ∈ full.map (upd1 s l),
        hasFT t2.foreign_tables u.name = false := by
      intro u hu t2 ht2
      obtain ⟨t, ht, rfl⟩ := List.mem_map.mp ht2
      have hfr := hfresh u (List.mem_cons_of_mem s hu) t ht
      by_cases hm : s.name ++ "_id" ∈ t.columns
      · have hbne : (s.name == u.name) = false :=
          beq_eq_false_iff_ne.mpr (hnames u hu)
        rw [upd1, if_pos hm]
        show hasFT (t.foreign_tables ++ [(s.name, l)]) u.name = false
        rw [hasFT_append, hfr]
        simp [hasFT, hbne]
      · simp [upd1, hm, hfr]
    have hss := ih (full.map (upd1 s l))
      (fun u hu => hids u (List.mem_cons_of_mem s hu))
      (List.pairwise_cons.mp hnd).2 hfresh2
    have hstep : set_sampled_ids (s :: ss) full =
        set_sampled_ids ss (full.map (upd1 s l)) := by
      rw [set_sampled_ids, hatt]
    rw [hstep, hss, List.map_map]
    refine congrArg (fun x => (x, Option.none)) ?_
    refine List.map_congr_left ?_
    intro t _
    exact (updAll_cons s l ss t hl).symm

/-- C2: when every sampled table has captured ids, sampled names are
pairwise distinct, and no full table's restriction map already holds a
sampled name (as in `main`, where the maps start empty), the referential
filter raises nothing, and a full table ends up with a restriction mapping
a sampled table's name to that table's captured ids exactly when its
column list contains the conventional column `<sampled_name>_id`; full
tables without that column receive no restriction from that sampled
table. -/
theorem referential_filter_attaches_iff (sampled full : List Table)
    (hids : ∀ s ∈ sampled, s.ids.isSome = true)
    (hnd : List.Pairwise (fun a b => a.name ≠ b.name) sampled)
    (hfresh : ∀ s ∈ sampled, ∀ t ∈ full, hasFT t.foreign_tables s.name = false) :
    (set_sampled_ids sampled full).2 = Option.none ∧
    ∀ (i : Nat) (s : Table), s ∈ sampled → ∀ t : Table, full.get? i = some t →
      ∃ t2, (set_sampled_ids sampled full).1.get? i = some t2 ∧
        (s.name ++ "_id" ∈ t.columns →
           lookupFT t2.foreign_tables s.name = some (s.ids.getD [])) ∧
        (s.name ++ "_id" ∉ t.columns →
           lookupFT t2.foreign_tables s.name = Option.none) := by
  have hok := set_sampled_ids_ok sampled full hids hnd hfresh
  rw [hok]
  refine ⟨rfl, ?_⟩
  intro i s hs t ht
  have htm : t ∈ full := List.get?_mem ht
  have hf : hasFT t.foreign_tables s.name = false := hfresh s hs t htm
  refine ⟨updAll sampled t, ?_, ?_, ?_⟩
  · rw [List.get?_eq_getElem?, List.getElem?_map, ← List.get?_eq_getElem?, ht]
    rfl
  · intro hm
    show lookupFT (t.foreign_tables ++ restrOf t sampled) s.name = _
    rw [lookupFT_append_left _ _ _ hf]
    exact lookupFT_restrOf_pos t sampled s hs hnd hm
  · intro hm
    show lookupFT (t.foreign_tables ++ restrOf t sampled) s.name = _
    rw [lookupFT_append_left _ _ _ hf]
    exact lookupFT_restrOf_neg t sampled s hs hnd hm

/-- The concrete sampled `users` table of the specified scenario. -/
def usersTable : Table :=
  ⟨"users", ["id", "name"], ["integer", "text"], some 2,
   some [Value.int 1, Value.int 2], []⟩

/-- A concrete full `orders` table that references the sampled `users`
table through the code's conventional foreign-key column `users_id`
(derived as the sampled table's name plus `_id`). -/
def ordersTable : Table :=
  ⟨"orders", ["id", "users_id"], ["integer", "integer"], Option.none,
   Option.none, []⟩

/-- C2 witness: the filter on the concrete `users`/`orders` scenario
raises nothing and attaches `users ↦ (1, 2)` to `orders`. -/
theorem referential_filter_attaches_iff_witness :
    (set_sampled_ids [usersTable] [ordersTable]).2 = Option.none ∧
    ∃ t2, (set_sampled_ids [usersTable] [ordersTable]).1.get? 0 = some t2 ∧
      lookupFT t2.foreign_tables "users" = some [Value.int 1, Value.int 2] := by
  have h := referential_filter_attaches_iff [usersTable] [ordersTable]
    (by intro s hs; rw [List.mem_singleton.mp hs]; rfl)
    (List.pairwise_singleton _ _)
    (by intro s hs t ht; rw [List.mem_singleton.mp hs, List.mem_singleton.mp ht]; rfl)
  refine ⟨h.1, ?_⟩
  obtain ⟨t2, ht2, hpos, _⟩ := h.2 0 usersTable (List.mem_singleton.mpr rfl)
    ordersTable rfl
  exact ⟨t2, ht2, hpos (by decide)⟩

/-- C10: when the bounded read returns zero rows, the sampled dump still
writes the `INSERT INTO <table> (<columns>) VALUES ` header line followed
by a blank line, writes no value tuple and no `;` terminator, returns an
empty captured-id list, and raises no error. -/
theorem empty_sample_dump (name : String) (columns coltypes : List String)
    (limit : Nat) (dbRows : List (List Value))
    (h : dbRows.take limit = []) :
    select_and_insert name columns coltypes limit dbRows =
      ("INSERT INTO " ++ name ++ " (" ++ columns_sql columns ++ ") VALUES \n"
         ++ "\n",
       [], Option.none) := by
  simp [select_and_insert, h, sai_go]

/-- If a predicate holds nowhere past the split and another holds nowhere
before it, an index satisfying the first precedes an index satisfying the
second. -/
theorem phase_lt {α : Type} (P Q : α → Bool) (X Y : List α)
    (hP : ∀ e ∈ Y, P e = false) (hQ : ∀ e ∈ X, Q e = false)
    (tr : List α) (htr : tr = X ++ Y)
    (i j : Nat) (hi : i < tr.length) (hj : j < tr.length)
    (hPi : P (tr.get ⟨i, hi⟩) = true) (hQj : Q (tr.get ⟨j, hj⟩) = true) :
    i < j := by
  subst htr
  have h1 := seg_lt P X Y hP i hi hPi
  have h2 := seg_ge Q X Y hQ j hj hQj
  omega

/-- Mapping into events a predicate rejects leaves nothing to filter. -/
theorem filter_false_of_map {α : Type} (P : Event → Bool) (f : α → Event)
    (hf : ∀ x, P (f x) = false) (l : List α) : (l.map f).filter P = [] := by
  induction l with
  | nil => rfl
  | cons a l2 ih => simp [hf, ih]

/-- C1: the orchestrator's output keeps the strict phase order — the
referential filter runs exactly once; drop statements exist for every
exported table (sampled and full) and recreate statements likewise; every
drop precedes every table's data; every sampled dump precedes the filter;
the filter precedes every full dump; and every recreate follows every
table's data. -/
theorem main_phase_ordering (full sampled : List Table) :
    ((main_trace full sampled).filter isRunFilter).length = 1 ∧
    (∀ t ∈ full ++ sampled,
       Event.drop_constraints t.name ∈ main_trace full sampled ∧
       Event.create_constraints t.name ∈ main_trace full sampled) ∧
    (∀ (i j : Nat) (hi : i < (main_trace full sampled).length)
       (hj : j < (main_trace full sampled).length),
       (isDrop ((main_trace full sampled).get ⟨i, hi⟩) = true →
          isData ((main_trace full sampled).get ⟨j, hj⟩) = true → i < j) ∧
       (isDumpSampled ((main_trace full sampled).get ⟨i, hi⟩) = true →
          isRunFilter ((main_trace full sampled).get ⟨j, hj⟩) = true → i < j) ∧
       (isRunFilter ((main_trace full sampled).get ⟨i, hi⟩) = true →
          isDumpFull ((main_trace full sampled).get ⟨j, hj⟩) = true → i < j) ∧
       (isData ((main_trace full sampled).get ⟨i, hi⟩) = true →
          isCreate ((main_trace full sampled).get ⟨j, hj⟩) = true → i < j)) := by
  have hsplit1 : main_trace full sampled =
      ([Event.begin_dump] ++
        (full ++ sampled).map (fun t => Event.drop_constraints t.name)) ++
      (sampled.map (fun t => Event.dump_sampled t.name) ++
        ([Event.run_filter] ++
          (full.map (fun t => Event.dump_full t.name) ++
            ((full ++ sampled).map (fun t => Event.create_constraints t.name) ++
              [Event.end_dump])))) := by
    simp [main_trace, List.append_assoc]
  have hsplit2 : main_trace full sampled =
      ([Event.begin_dump] ++
        ((full ++ sampled).map (fun t => Event.drop_constraints t.name) ++
          sampled.map (fun t => Event.dump_sampled t.name))) ++
      ([Event.run_filter] ++
        (full.map (fun t => Event.dump_full t.name) ++
          ((full ++ sampled).map (fun t => Event.create_constraints t.name) ++
            [Event.end_dump]))) := by
    simp [main_trace, List.append_assoc]
  have hsplit3 : main_trace full sampled =
      ([Event.begin_dump] ++
        ((full ++ sampled).map (fun t => Event.drop_constraints t.name) ++
          (sampled.map (fun t => Event.dump_sampled t.name) ++
            [Event.run_filter]))) ++
      (full.map (fun t => Event.dump_full t.name) ++
        ((full ++ sampled).map (fun t => Event.create_constraints t.name) ++
          [Event.end_dump])) := by
    simp [main_trace, List.append_assoc]
  have hsplit4 : main_trace full sampled =
      ([Event.begin_dump] ++
        ((full ++ sampled).map (fun t => Event.drop_constraints t.name) ++
          (sampled.map (fun t => Event.dump_sampled t.name) ++
            ([Event.run_filter] ++
              full.map (fun t => Event.dump_full t.name))))) ++
      ((full ++ sampled).map (fun t => Event.create_constraints t.name) ++
        [Event.end_dump]) := by
    simp [main_trace, List.append_assoc]
  have hnoDropY1 : ∀ e ∈
      (sampled.map (fun t => Event.dump_sampled t.name) ++
        ([Event.run_filter] ++
          (full.map (fun t => Event.dump_full t.name) ++
            ((full ++ sampled).map (fun t => Event.create_constraints t.name) ++
              [Event.end_dump])))), isDrop e = false := by
    intro e he
    simp only [List.mem_append, List.mem_map, List.mem_singleton] at he
    rcases he with ⟨t, _, rfl⟩ | rfl | ⟨t, _, rfl⟩ | ⟨t, _, rfl⟩ | rfl <;> rfl
  have hnoDataX1 : ∀ e ∈
      ([Event.begin_dump] ++
        (full ++ sampled).map (fun t => Event.drop_constraints t.name)),
      isData e = false := by
    intro e he
    simp only [List.mem_append, List.mem_map, List.mem_singleton] at he
    rcases he with rfl | ⟨t, _, rfl⟩ <;> rfl
  have hnoDSY2 : ∀ e ∈
      ([Event.run_filter] ++
        (full.map (fun t => Event.dump_full t.name) ++
          ((full ++ sampled).map (fun t => Event.create_constraints t.name) ++
            [Event.end_dump]))), isDumpSampled e = false := by
    intro e he
    simp only [List.mem_append, List.mem_map, List.mem_singleton] at he
    rcases he with rfl | ⟨t, _, rfl⟩ | ⟨t, _, rfl⟩ | rfl <;> rfl
  have hnoRFX2 : ∀ e ∈
      ([Event.begin_dump] ++
        ((full ++ sampled).map (fun t => Event.drop_constraints t.name) ++
          sampled.map (fun t => Event.dump_sampled t.name))),
      isRunFilter e = false := by
    intro e he
    simp only [List.mem_append, List.mem_map, List.mem_singleton] at he
    rcases he with rfl | ⟨t, _, rfl⟩ | ⟨t, _, rfl⟩ <;> rfl
  have hnoRFY3 : ∀ e ∈
      (full.map (fun t => Event.dump_full t.name) ++
        ((full ++ sampled).map (fun t => Event.create_constraints t.name) ++
          [Event.end_dump])), isRunFilter e = false := by
    intro e he
    simp only [List.mem_append, List.mem_map, List.mem_singleton] at he
    rcases he with ⟨t, _, rfl⟩ | ⟨t, _, rfl⟩ | rfl <;> rfl
  have hnoDFX3 : ∀ e ∈
      ([Event.begin_dump] ++
        ((full ++ sampled).map (fun t => Event.drop_constraints t.name) ++
          (sampled.map (fun t => Event.dump_sampled t.name) ++
            [Event.run_filter]))), isDumpFull e = false := by
    intro e he
    simp only [List.mem_append, List.mem_map, List.mem_singleton] at he
    rcases he with rfl | ⟨t, _, rfl⟩ | ⟨t, _, rfl⟩ | rfl <;> rfl
  have hnoDataY4 : ∀ e ∈
      ((full ++ sampled).map (fun t => Event.create_constraints t.name) ++
        [Event.end_dump]), isData e = false := by
    intro e he
    simp only [List.mem_append, List.mem_map, List.mem_singleton] at he
    rcases he with ⟨t, _, rfl⟩ | rfl <;> rfl
  have hnoCrX4 : ∀ e ∈
      ([Event.begin_dump] ++
        ((full ++ sampled).map (fun t => Event.drop_constraints t.name) ++
          (sampled.map (fun t => Event.dump_sampled t.name) ++
            ([Event.run_filter] ++
              full.map (fun t => Event.dump_full t.name))))),
      isCreate e = false := by
    intro e he
    simp only [List.mem_append, List.mem_map, List.mem_singleton] at he
    rcases he with rfl | ⟨t, _, rfl⟩ | ⟨t, _, rfl⟩ | rfl | ⟨t, _, rfl⟩ <;> rfl
  refine ⟨?_, ?_, ?_⟩
  · have c1a := filter_false_of_map isRunFilter
      (fun t : Table => Event.drop_constraints t.name) (fun _ => rfl) full
    have c1b := filter_false_of_map isRunFilter
      (fun t : Table => Event.drop_constraints t.name) (fun _ => rfl) sampled
    have c2 := filter_false_of_map isRunFilter
      (fun t : Table => Event.dump_sampled t.name) (fun _ => rfl) sampled
    have c3 := filter_false_of_map isRunFilter
      (fun t : Table => Event.dump_full t.name) (fun _ => rfl) full
    have c4a := filter_false_of_map isRunFilter
      (fun t : Table => Event.create_constraints t.name) (fun _ => rfl) full
    have c4b := filter_false_of_map isRunFilter
      (fun t : Table => Event.create_constraints t.name) (fun _ => rfl) sampled
    simp [main_trace, List.filter_append, c1a, c1b, c2, c3, c4a, c4b,
          List.filter, isRunFilter]
  · intro t ht
    constructor
    · rw [hsplit1]
      exact List.mem_append.mpr (Or.inl (List.mem_append.mpr
        (Or.inr (List.mem_map.mpr ⟨t, ht, rfl⟩))))
    · rw [hsplit4]
      exact List.mem_append.mpr (Or.inr (List.mem_append.mpr
        (Or.inl (List.mem_map.mpr ⟨t, ht, rfl⟩))))
  · intro i j hi hj
    refine ⟨fun hPi hQj => ?_, fun hPi hQj => ?_, fun hPi hQj => ?_,
            fun hPi hQj => ?_⟩
    · exact phase_lt isDrop isData _ _ hnoDropY1 hnoDataX1 _ hsplit1
        i j hi hj hPi hQj
    · exact phase_lt isDumpSampled isRunFilter _ _ hnoDSY2 hnoRFX2 _ hsplit2
        i j hi hj hPi hQj
    · exact phase_lt isRunFilter isDumpFull _ _ hnoRFY3 hnoDFX3 _ hsplit3
        i j hi hj hPi hQj
    · exact phase_lt isData isCreate _ _ hnoDataY4 hnoCrX4 _ hsplit4
        i j hi hj hPi hQj

/-- C1 witness: the phase ordering at the concrete one-full, one-sampled
run — index 1 (a drop) precedes 3 (the sampled dump), which precedes 4
(the filter), which precedes 5 (the full dump), which precedes 6 (a
recreate). -/
theorem main_phase_ordering_witness :
    ((main_trace [ordersTable] [usersTable]).filter isRunFilter).length = 1 ∧
    (1 : Nat) < 3 ∧ (3 : Nat) < 4 ∧ (4 : Nat) < 5 ∧ (5 : Nat) < 6 := by
  have h := main_phase_ordering [ordersTable] [usersTable]
  refine ⟨h.1, ?_, ?_, ?_, ?_⟩
  · exact (h.2.2 1 3 (by decide) (by decide)).1 (by decide) (by decide)
  · exact (h.2.2 3 4 (by decide) (by decide)).2.1 (by decide) (by decide)
  · exact (h.2.2 4 5 (by decide) (by decide)).2.2.1 (by decide) (by decide)
  · exact (h.2.2 5 6 (by decide) (by decide)).2.2.2 (by decide) (by decide)

/-- C10 witness: the empty-read dump at a concrete sampled table. -/
theorem empty_sample_dump_witness :
    select_and_insert "users" ["id", "name"] ["integer", "text"] 2 [] =
      ("INSERT INTO " ++ "users" ++ " (" ++ columns_sql ["id", "name"]
         ++ ") VALUES \n" ++ "\n",
       [], Option.none) :=
  empty_sample_dump "users" ["id", "name"] ["integer", "text"] 2 [] rfl

end Dbsync
